import Mathlib

/-!
# Neonshare client-side data-access layer: a shallow embedding

This file embeds the data-access/caching layer of the Neonshare photo-sharing
application (user store, photo store, comment store, reaction store, media
store) as executable Lean definitions, and proves the specification's claims
about it.

Strings from the host language are modelled as `List Char`; epoch-millisecond
clock readings as `Int`; the remote document store as explicit association
lists threaded through each operation.  Asynchronous operations are split into
their synchronous prefix (up to the first remote await) and a settle step, so
that request deduplication and cache population can be stated per step.
-/

namespace Neonshare

/-! ## Generic association-list maps (the in-memory `Map` objects) -/

/-- Lookup in an association list, first binding wins (models `Map.get`). -/
def mget {α : Type} (k : String) : List (String × α) → Option α
  | [] => none
  | (k', v) :: rest => if k = k' then some v else mget k rest

/-- Insert or overwrite a binding (models `Map.set`). -/
def mset {α : Type} (k : String) (v : α) (m : List (String × α)) :
    List (String × α) :=
  (k, v) :: m.filter (fun p => p.1 ≠ k)

/-- Delete a binding (models `Map.delete`). -/
def mdel {α : Type} (k : String) (m : List (String × α)) : List (String × α) :=
  m.filter (fun p => p.1 ≠ k)

theorem mget_filter_ne {α : Type} (k k' : String) (m : List (String × α)) :
    mget k' (m.filter (fun p => p.1 ≠ k)) =
      if k' = k then none else mget k' m := by
  induction m with
  | nil => simp [mget]
  | cons p rest ih =>
    obtain ⟨pk, pv⟩ := p
    by_cases hp : pk = k
    · subst hp
      by_cases hk : k' = pk
      · subst hk; simpa [List.filter, mget] using ih
      · simpa [List.filter, mget, hk] using ih
    · have hfilter : List.filter (fun p => decide (p.1 ≠ k)) ((pk, pv) :: rest)
          = (pk, pv) :: List.filter (fun p => decide (p.1 ≠ k)) rest := by
        simp [List.filter, hp]
      by_cases hk : k' = pk
      · subst hk
        have hne : ¬k' = k := hp
        simp [hfilter, mget, hne]
      · simp only [hfilter, mget, if_neg hk]
        exact ih

theorem mget_mdel {α : Type} (k k' : String) (m : List (String × α)) :
    mget k' (mdel k m) = if k' = k then none else mget k' m :=
  mget_filter_ne k k' m

theorem mget_mset {α : Type} (k k' : String) (v : α) (m : List (String × α)) :
    mget k' (mset k v m) = if k' = k then some v else mget k' m := by
  by_cases hk : k' = k
  · subst hk; simp [mset, mget]
  · simp only [mset, mget, if_neg hk]
    simpa [hk] using mget_filter_ne k k' m

theorem mget_mset_self {α : Type} (k : String) (v : α) (m : List (String × α)) :
    mget k (mset k v m) = some v := by
  simp [mget_mset]

theorem mget_mdel_self {α : Type} (k : String) (m : List (String × α)) :
    mget k (mdel k m) = none := by
  simp [mget_mdel]

/-! ## JavaScript string primitives used by the stores -/

/-- `String.prototype.trim` whitespace class (WhiteSpace ∪ LineTerminator). -/
def isJsWhitespace (c : Char) : Bool :=
  c = ' ' || c = '\t' || c = '\n' || c = '\r' ||
  c = Char.ofNat 0x0B || c = Char.ofNat 0x0C ||
  c = Char.ofNat 0xA0 || c = Char.ofNat 0x1680 ||
  (Char.ofNat 0x2000 ≤ c && c ≤ Char.ofNat 0x200A) ||
  c = Char.ofNat 0x2028 || c = Char.ofNat 0x2029 ||
  c = Char.ofNat 0x202F || c = Char.ofNat 0x205F ||
  c = Char.ofNat 0x3000 || c = Char.ofNat 0xFEFF

/-- `s.trim()`: strip leading and trailing whitespace. -/
def jsTrim (s : List Char) : List Char :=
  ((s.dropWhile isJsWhitespace).reverse.dropWhile isJsWhitespace).reverse

/-- ASCII branch of `String.prototype.toLowerCase`, applied characterwise. -/
def charToLower (c : Char) : Char :=
  if 'A' ≤ c && c ≤ 'Z' then Char.ofNat (c.toNat + 32) else c

/-- `s.toLowerCase()` on the ASCII fragment. -/
def jsToLower (s : List Char) : List Char := s.map charToLower

/-! ## `validateUsername` (user store) -/

/-- Result shape `{ valid: boolean; error?: string }`. -/
structure ValidationResult where
  valid : Bool
  error : Option String
deriving Repr, DecidableEq

/-- A character accepted by the username charset regex `[a-z0-9_]`. -/
def isUsernameChar (c : Char) : Bool :=
  ('a' ≤ c && c ≤ 'z') || ('0' ≤ c && c ≤ '9') || c = '_'

/-- `/^[a-z0-9_]+$/.test s`. -/
def matchesUsernameRegex (s : List Char) : Bool :=
  !s.isEmpty && s.all isUsernameChar

/-- The fixed reserved-word list from `validateUsername`. -/
def reservedUsernames : List (List Char) :=
  ["admin".data, "root".data, "system".data, "moderator".data, "mod".data,
   "null".data, "undefined".data]

/-- `validateUsername` from the user store: trim, lowercase, length 3–20,
charset check, reserved-word check. -/
def validateUsername (username : List Char) : ValidationResult :=
  let trimmed := jsToLower (jsTrim username)
  if trimmed.length < 3 then
    ⟨false, some "Username must be at least 3 characters"⟩
  else if trimmed.length > 20 then
    ⟨false, some "Username must be 20 characters or less"⟩
  else if !matchesUsernameRegex trimmed then
    ⟨false, some "Username can only contain letters, numbers, and underscores"⟩
  else if trimmed ∈ reservedUsernames then
    ⟨false, some "This username is reserved"⟩
  else
    ⟨true, none⟩

/-! ## `validateImage` (media store) -/

/-- The fields of a `File` object that `validateImage` consults. -/
structure FileInfo where
  type : String
  size : Nat
deriving Repr, DecidableEq

/-- `MAX_SIZE = 10 * 1024 * 1024` from `validateImage`. -/
def MAX_SIZE : Nat := 10 * 1024 * 1024

/-- The MIME-type allow-list from `validateImage`. -/
def ALLOWED_TYPES : List String :=
  ["image/jpeg", "image/png", "image/gif", "image/webp"]

/-- `validateImage` from the media store. -/
def validateImage (file : FileInfo) : ValidationResult :=
  if file.type ∉ ALLOWED_TYPES then
    ⟨false, some "Invalid file type. Use JPEG, PNG, GIF, or WebP."⟩
  else if file.size > MAX_SIZE then
    ⟨false, some "File too large. Maximum size is 10MB."⟩
  else
    ⟨true, none⟩

/-! ## Comment store: sanitization and `addComment` -/

/-- `MAX_COMMENT_LENGTH = 500` from the comment store. -/
def MAX_COMMENT_LENGTH : Nat := 500

/-- One left-to-right pass implementing the global replace of the tag-shaped
regex (a `<`, any run of non-`>` characters, then `>`) by the empty string.
The first component holds, reversed, the characters of a potential match begun
at an unmatched `<`; they are flushed verbatim when input ends without a
closing `>`, exactly as the regex leaves an unclosed `<...` in place. -/
def stripTagsGo : Option (List Char) → List Char → List Char
  | none, [] => []
  | some pending, [] => pending.reverse
  | none, c :: rest =>
      if c = '<' then stripTagsGo (some [c]) rest
      else c :: stripTagsGo none rest
  | some pending, c :: rest =>
      if c = '>' then stripTagsGo none rest
      else stripTagsGo (some (c :: pending)) rest

/-- `text.replace(/<[^>]*>/g, '')` from `sanitizeCommentText`. -/
def stripHtmlTags (s : List Char) : List Char := stripTagsGo none s

/-- A character removed by the control-character regex
`[\x00-\x08\x0B\x0C\x0E-\x1F]` (note: tab, LF and CR are not in the class). -/
def isStrippedControlChar (c : Char) : Bool :=
  c.toNat ≤ 0x08 || c.toNat = 0x0B || c.toNat = 0x0C ||
  (0x0E ≤ c.toNat && c.toNat ≤ 0x1F)

/-- `text.replace(/[\x00-\x08\x0B\x0C\x0E-\x1F]/g, '')`. -/
def stripControlChars (s : List Char) : List Char :=
  s.filter (fun c => !isStrippedControlChar c)

/-- `sanitizeCommentText` from the comment store:
`text.trim().slice(0, MAX_COMMENT_LENGTH)` then tag strip then control strip,
in that order. -/
def sanitizeCommentText (s : List Char) : List Char :=
  stripControlChars (stripHtmlTags ((jsTrim s).take MAX_COMMENT_LENGTH))

/-- A comment document. -/
structure Comment where
  id : List Char
  photoId : String
  userId : String
  text : List Char
  timestamp : Int
deriving Repr, DecidableEq

/-- The comment store's module state: the remote subcollection documents (all
comment ids are fresh, so a `setDoc` is modelled as an append), the per-photo
comments cache, and a counter of remote write operations issued. -/
structure CommentStoreState where
  remote : List Comment
  commentsCache : List (String × (List Comment × Int))
  remoteWrites : Nat
deriving Repr, DecidableEq

/-- `addComment` from the comment store.  `commentId` stands for the generated
`Date.now()`-plus-random id, `now` for the timestamp, and `net` for whether
the remote `setDoc` succeeds (`false` models a thrown transport error, which
the surrounding catch converts to `null`). -/
def addComment (photoId userId : String) (text : List Char)
    (commentId : List Char) (now : Int) (net : Bool)
    (st : CommentStoreState) : Option Comment × CommentStoreState :=
  let sanitizedText := sanitizeCommentText text
  if sanitizedText.isEmpty then (none, st)
  else
    let comment : Comment := ⟨commentId, photoId, userId, sanitizedText, now⟩
    if net then
      (some comment,
       { remote := st.remote ++ [comment],
         commentsCache := mdel photoId st.commentsCache,
         remoteWrites := st.remoteWrites + 1 })
    else
      (none, { st with remoteWrites := st.remoteWrites + 1 })

theorem stripTagsGo_length (s : List Char) :
    ∀ pending : Option (List Char),
      (stripTagsGo pending s).length ≤
        (match pending with | none => 0 | some p => p.length) + s.length := by
  induction s with
  | nil =>
    intro pending
    cases pending with
    | none => simp [stripTagsGo]
    | some p => simp [stripTagsGo]
  | cons c rest ih =>
    intro pending
    cases pending with
    | none =>
      by_cases hc : c = '<'
      · simp only [stripTagsGo, if_pos hc]
        have := ih (some [c])
        simp only [List.length_cons, List.length_nil] at *
        omega
      · simp only [stripTagsGo, if_neg hc, List.length_cons]
        have := ih none
        simp only at this
        omega
    | some p =>
      by_cases hc : c = '>'
      · simp only [stripTagsGo, if_pos hc]
        have := ih none
        simp only [List.length_cons] at *
        omega
      · simp only [stripTagsGo, if_neg hc]
        have := ih (some (c :: p))
        simp only [List.length_cons] at *
        omega

theorem stripHtmlTags_length (s : List Char) :
    (stripHtmlTags s).length ≤ s.length := by
  simpa using stripTagsGo_length s none

theorem sanitizeCommentText_length (s : List Char) :
    (sanitizeCommentText s).length ≤ 500 := by
  unfold sanitizeCommentText stripControlChars
  calc (((stripHtmlTags ((jsTrim s).take MAX_COMMENT_LENGTH))).filter
          (fun c => !isStrippedControlChar c)).length
      ≤ (stripHtmlTags ((jsTrim s).take MAX_COMMENT_LENGTH)).length :=
        List.length_filter_le _ _
    _ ≤ ((jsTrim s).take MAX_COMMENT_LENGTH).length := stripHtmlTags_length _
    _ ≤ 500 := by simp [MAX_COMMENT_LENGTH]

theorem jsTrim_all_whitespace {s : List Char}
    (h : s.all isJsWhitespace = true) : jsTrim s = [] := by
  have hdrop : s.dropWhile isJsWhitespace = [] := by
    rw [List.dropWhile_eq_nil_iff]
    intro x hx
    exact (List.all_eq_true.mp h) x hx
  simp [jsTrim, hdrop]

set_option maxRecDepth 10000 in
/-- C5 counterexample: it is not true that every 600-character input is
truncated to exactly 500 characters — 600 spaces sanitize to the empty string,
because trimming and stripping run in addition to the truncation. -/
theorem sanitizeCommentText_600_not_always_500 :
    ¬ (∀ s : List Char, s.length = 600 →
        (sanitizeCommentText s).length = 500) := by
  intro h
  have h500 := h (List.replicate 600 ' ') (by simp)
  have hempty : sanitizeCommentText (List.replicate 600 ' ') = [] := by
    rw [sanitizeCommentText, jsTrim_all_whitespace
      (by decide : (List.replicate 600 ' ').all isJsWhitespace = true)]
    rfl
  rw [hempty] at h500
  simp at h500

/-- C5 (amended): the script-tag example sanitizes to `alert(1)Hi`; every
input sanitizes to at most 500 characters, and a 600-character input
sanitizes to exactly 500 characters when trimming and both stripping passes
leave it untouched; an all-whitespace input sanitizes to the empty string and
`addComment` on it returns `null` leaving the store state — in particular the
remote collection and the write counter — unchanged. -/
theorem sanitizeCommentText_spec :
    sanitizeCommentText "<script>alert(1)</script>Hi".data = "alert(1)Hi".data ∧
    (∀ s : List Char, (sanitizeCommentText s).length ≤ 500) ∧
    (∀ s : List Char, s.length = 600 → jsTrim s = s →
       stripHtmlTags (s.take 500) = s.take 500 →
       stripControlChars (s.take 500) = s.take 500 →
       (sanitizeCommentText s).length = 500) ∧
    (∀ s : List Char, s.all isJsWhitespace = true →
       sanitizeCommentText s = []) ∧
    (∀ (photoId userId : String) (s cid : List Char) (now : Int) (net : Bool)
       (st : CommentStoreState), s.all isJsWhitespace = true →
       addComment photoId userId s cid now net st = (none, st)) := by
  have hws : ∀ s : List Char, s.all isJsWhitespace = true →
      sanitizeCommentText s = [] := by
    intro s h
    rw [sanitizeCommentText, jsTrim_all_whitespace h]
    rfl
  refine ⟨by decide, sanitizeCommentText_length, ?_, hws, ?_⟩
  · intro s hlen htrim htags hctrl
    rw [sanitizeCommentText, htrim, MAX_COMMENT_LENGTH, htags, hctrl]
    simp [hlen]
  · intro photoId userId s cid now net st h
    rw [addComment]
    simp [hws s h]

set_option maxRecDepth 10000 in
/-- C5 witness: the amended statement applied to a 600-character input of
letters and to concrete all-whitespace inputs. -/
theorem sanitizeCommentText_spec_witness :
    (sanitizeCommentText (List.replicate 600 'a')).length = 500 ∧
    sanitizeCommentText "  \t ".data = [] ∧
    addComment "p1" "u1" " \t  ".data "c1".data 0 true ⟨[], [], 0⟩ =
      (none, ⟨[], [], 0⟩) :=
  ⟨sanitizeCommentText_spec.2.2.1 (List.replicate 600 'a') (by decide)
      (by decide) (by decide) (by decide),
   sanitizeCommentText_spec.2.2.2.1 _ (by decide),
   sanitizeCommentText_spec.2.2.2.2 "p1" "u1" _ _ 0 true _ (by decide)⟩

/-! ## TTL cache entries and request deduplication (shared pattern) -/

/-- `CacheEntry<T> = { data: T; timestamp: number }`. -/
structure CacheEntry (T : Type) where
  data : T
  timestamp : Int
deriving Repr, DecidableEq

/-- `CACHE_TTL` of the user store: 5 minutes. -/
def USER_CACHE_TTL : Int := 5 * 60 * 1000

/-- `CACHE_TTL` of the photo store: 2 minutes. -/
def PHOTO_CACHE_TTL : Int := 2 * 60 * 1000

/-- `CACHE_TTL` of the comment store: 1 minute. -/
def COMMENT_CACHE_TTL : Int := 60 * 1000

/-- `isCacheValid(entry)`: false for a missing entry, otherwise
`Date.now() - entry.timestamp < CACHE_TTL` with `now` and the per-store TTL
made explicit. -/
def isCacheValid {T : Type} (entry : Option (CacheEntry T)) (now ttl : Int) :
    Bool :=
  match entry with
  | none => false
  | some e => now - e.timestamp < ttl

/-- What `deduplicateRequest(key, fetcher)` does on the synchronous tick of
its call: which future the caller receives, whether `fetcher` ran, and the
updated pending-request map.  Futures are named by the counter `nextId`. -/
structure DedupOutcome where
  futureId : Nat
  producerInvoked : Bool
  pendingAfter : List (String × Nat)
  nextIdAfter : Nat
deriving Repr, DecidableEq

/-- `deduplicateRequest` from the stores: return the registered future if one
exists under `key`; otherwise invoke the producer and register its future. -/
def deduplicateRequest (key : String) (pending : List (String × Nat))
    (nextId : Nat) : DedupOutcome :=
  match mget key pending with
  | some id => ⟨id, false, pending, nextId⟩
  | none => ⟨nextId, true, mset key nextId pending, nextId + 1⟩

/-- The `.finally(() => pendingRequests.delete(key))` cleanup that runs when
the registered future settles, successfully or not. -/
def settlePending (key : String) (pending : List (String × Nat)) :
    List (String × Nat) :=
  mdel key pending

/-- What the synchronous prefix of a cached read hands its caller: cached
data immediately, or a future (pre-existing or freshly registered). -/
inductive ReadStart (T : Type) where
  | hit (data : T)
  | joined (id : Nat)
  | started (id : Nat)
deriving Repr, DecidableEq

/-! ## User store -/

/-- A `users` collection document. -/
structure User where
  username : String
  password : Option String
  friends : List String
  googleId : Option String
deriving Repr, DecidableEq

/-- The user store's module state plus the remote `users` collection it talks
to, keyed by username.  `remoteFetches` counts fetcher invocations. -/
structure UserStoreState where
  remote : List (String × User)
  userCache : List (String × CacheEntry User)
  pending : List (String × Nat)
  nextId : Nat
  remoteFetches : Nat
deriving Repr, DecidableEq

/-- The dedup step of `getUserByUsername` under key `user:<username>`. -/
def getUserDedup (username : String) (st : UserStoreState) :
    ReadStart (Option User) × UserStoreState :=
  let d := deduplicateRequest ("user:" ++ username) st.pending st.nextId
  (if d.producerInvoked then .started d.futureId else .joined d.futureId,
   { st with pending := d.pendingAfter, nextId := d.nextIdAfter,
             remoteFetches :=
               st.remoteFetches + (if d.producerInvoked then 1 else 0) })

/-- The synchronous prefix of `getUserByUsername`: serve a valid cache entry
directly, otherwise go through `deduplicateRequest`. -/
def getUserByUsernameStart (username : String) (now : Int)
    (st : UserStoreState) : ReadStart (Option User) × UserStoreState :=
  match mget username st.userCache with
  | some cached =>
    if isCacheValid (some cached) now USER_CACHE_TTL then
      (.hit (some cached.data), st)
    else getUserDedup username st
  | none => getUserDedup username st

/-- The settle step of `getUserByUsername`'s fetcher: on transport success
(`net = true`) a `getDoc` against the current remote, populating the cache on
a hit; on failure the catch block yields `null`.  Either way the `finally`
cleanup deregisters the pending future. -/
def getUserByUsernameSettle (username : String) (net : Bool) (now : Int)
    (st : UserStoreState) : Option User × UserStoreState :=
  let (result, st1) :=
    if net then
      match mget username st.remote with
      | some u =>
        (some u,
         { st with userCache := mset username ⟨u, now⟩ st.userCache })
      | none => (none, st)
    else (none, st)
  (result, { st1 with pending := settlePending ("user:" ++ username) st1.pending })

/-- A full `await getUserByUsername(username)` in a quiescent store (no other
call in flight): run the synchronous prefix and, if a fetch started, settle
it immediately against the current remote. -/
def getUserQuiescent (username : String) (now : Int) (net : Bool)
    (st : UserStoreState) : Option User × UserStoreState :=
  match getUserByUsernameStart username now st with
  | (.hit v, st1) => (v, st1)
  | (.joined _, st1) => getUserByUsernameSettle username net now st1
  | (.started _, st1) => getUserByUsernameSettle username net now st1

/-- `getFriends`: `(await getUserByUsername(username))?.friends ?? []`. -/
def getFriends (username : String) (now : Int) (net : Bool)
    (st : UserStoreState) : List String × UserStoreState :=
  let q := getUserQuiescent username now net st
  ((q.1.map User.friends).getD [], q.2)

/-- Firestore `arrayUnion(x)`: append `x` unless already present. -/
def arrayUnion (x : String) (l : List String) : List String :=
  if x ∈ l then l else l ++ [x]

/-- Firestore `arrayRemove(x)`: remove every occurrence of `x`. -/
def arrayRemove (x : String) (l : List String) : List String :=
  l.filter (fun y => y ≠ x)

/-- `addFriend` from the user store: verify the target exists via the cached
getter, reject self-friending, then a single atomic batched write applying
`arrayUnion` to both users' friend arrays (`updateDoc` on a missing document
rejects, and the batch then commits nothing), finally invalidating both cache
entries.  `net = false` models a transport error caught as `false`. -/
def addFriend (currentUsername targetUsername : String) (now : Int)
    (net : Bool) (st : UserStoreState) : Bool × UserStoreState :=
  let (targetUser, st1) := getUserQuiescent targetUsername now net st
  match targetUser with
  | none => (false, st1)
  | some _ =>
    if currentUsername = targetUsername then (false, st1)
    else if net then
      match mget currentUsername st1.remote with
      | none => (false, st1)
      | some cu =>
        let remote1 := mset currentUsername
          { cu with friends := arrayUnion targetUsername cu.friends } st1.remote
        match mget targetUsername remote1 with
        | none => (false, st1)
        | some tu =>
          (true,
           { st1 with
             remote := mset targetUsername
               { tu with friends := arrayUnion currentUsername tu.friends }
               remote1,
             userCache :=
               mdel targetUsername (mdel currentUsername st1.userCache) })
    else (false, st1)

/-- `removeFriend` from the user store: a single atomic batched write applying
`arrayRemove` on both sides (no existence or self check), then invalidating
both cache entries; any failure is caught as `false` with nothing applied. -/
def removeFriend (currentUsername targetUsername : String) (net : Bool)
    (st : UserStoreState) : Bool × UserStoreState :=
  if net then
    match mget currentUsername st.remote with
    | none => (false, st)
    | some cu =>
      let remote1 := mset currentUsername
        { cu with friends := arrayRemove targetUsername cu.friends } st.remote
      match mget targetUsername remote1 with
      | none => (false, st)
      | some tu =>
        (true,
         { st with
           remote := mset targetUsername
             { tu with friends := arrayRemove currentUsername tu.friends }
             remote1,
           userCache := mdel targetUsername (mdel currentUsername st.userCache) })
  else (false, st)

/-! ## Photo store -/

/-- A `photos` collection document. -/
structure Photo where
  id : String
  url : String
  uploader : String
  tags : List String
  timestamp : Int
  pending : Option Bool
  deleted : Option Bool
deriving Repr, DecidableEq

/-- Insert into a list already sorted by descending timestamp, before the
first element not newer — the placement the stable JS sort gives. -/
def insertDesc (p : Photo) : List Photo → List Photo
  | [] => [p]
  | q :: rest =>
    if q.timestamp ≤ p.timestamp then p :: q :: rest
    else q :: insertDesc p rest

/-- `.sort((a, b) => b.timestamp - a.timestamp)`: the stable sort by
descending timestamp. -/
def sortByTimestampDesc : List Photo → List Photo
  | [] => []
  | p :: rest => insertDesc p (sortByTimestampDesc rest)

/-- The photo store's module state plus the remote `photos` collection. -/
structure PhotoStoreState where
  remote : List Photo
  photosCache : Option (CacheEntry (List Photo))
  pending : List (String × Nat)
  nextId : Nat
  remoteFetches : Nat
deriving Repr, DecidableEq

/-- The dedup step of `getAllPhotos` under key `allPhotos`. -/
def getAllPhotosDedup (st : PhotoStoreState) :
    ReadStart (List Photo) × PhotoStoreState :=
  let d := deduplicateRequest "allPhotos" st.pending st.nextId
  (if d.producerInvoked then .started d.futureId else .joined d.futureId,
   { st with pending := d.pendingAfter, nextId := d.nextIdAfter,
             remoteFetches :=
               st.remoteFetches + (if d.producerInvoked then 1 else 0) })

/-- The synchronous prefix of `getAllPhotos`: serve a valid cache entry
(`photosCache!.data`), otherwise go through `deduplicateRequest`. -/
def getAllPhotosStart (now : Int) (st : PhotoStoreState) :
    ReadStart (List Photo) × PhotoStoreState :=
  if isCacheValid st.photosCache now PHOTO_CACHE_TTL then
    match st.photosCache with
    | some e => (.hit e.data, st)
    | none => getAllPhotosDedup st
  else getAllPhotosDedup st

/-- The settle step of `getAllPhotos`'s fetcher: on success sort the fetched
collection newest-first and populate the cache; on transport failure the
catch block returns `[]` and writes no cache entry.  The `finally` cleanup
always deregisters the pending future. -/
def getAllPhotosSettle (net : Bool) (now : Int) (st : PhotoStoreState) :
    List Photo × PhotoStoreState :=
  let (result, st1) :=
    if net then
      let photos := sortByTimestampDesc st.remote
      (photos, { st with photosCache := some ⟨photos, now⟩ })
    else ([], st)
  (result, { st1 with pending := settlePending "allPhotos" st1.pending })

/-- `getVisiblePhotos` applied to the sequence `getAllPhotos()` resolved to:
keep exactly the photos with `uploader === username || tags.includes(username)`. -/
def getVisiblePhotos (username : String) (allPhotos : List Photo) :
    List Photo :=
  allPhotos.filter
    (fun photo => photo.uploader = username || photo.tags.contains username)

/-! ## Reaction store -/

/-- The reaction store's module state: the remote `reactions` subcollections
(photoId to the userIds owning a reaction document), the photo-to-count
cache, and the user-to-liked-photo-set cache. -/
structure ReactionState where
  remote : List (String × List String)
  reactionCountCache : List (String × Int)
  userReactionsCache : List (String × List String)
deriving Repr, DecidableEq

/-- `x || fallback` on a JS number read from the count cache: `undefined`
and `0` are falsy, everything else passes through. -/
def jsOrElse (x : Option Int) (fallback : Int) : Int :=
  match x with
  | none => fallback
  | some v => if v = 0 then fallback else v

/-- `toggleLike` from the reaction store: read like existence with a direct
`getDoc` against the remote subcollection, then delete or create the
reaction document, update both local caches (`max(0, count - 1)` on unlike,
`count + 1` on like), and return the new liked state.  On a transport error
(`net = false`) the catch block re-raises. -/
def toggleLike (photoId userId : String) (_createdAt : Int) (net : Bool)
    (st : ReactionState) : Except Unit Bool × ReactionState :=
  if net then
    let docs := (mget photoId st.remote).getD []
    let isLiked := docs.contains userId
    if isLiked then
      let userReactions := (mget userId st.userReactionsCache).getD []
      let currentCount := jsOrElse (mget photoId st.reactionCountCache) 1
      (.ok false,
       { remote := mset photoId (docs.filter (fun d => d ≠ userId)) st.remote,
         userReactionsCache :=
           mset userId (userReactions.filter (fun p => p ≠ photoId))
             st.userReactionsCache,
         reactionCountCache :=
           mset photoId (max 0 (currentCount - 1)) st.reactionCountCache })
    else
      let userReactions := (mget userId st.userReactionsCache).getD []
      let currentCount := jsOrElse (mget photoId st.reactionCountCache) 0
      (.ok true,
       { remote := mset photoId (docs ++ [userId]) st.remote,
         userReactionsCache :=
           mset userId (arrayUnion photoId userReactions) st.userReactionsCache,
         reactionCountCache :=
           mset photoId (currentCount + 1) st.reactionCountCache })
  else (.error (), st)

/-- `getReactionCount`: cached count if present, otherwise the remote
snapshot size cached and returned; a transport error is caught as `0`. -/
def getReactionCount (photoId : String) (net : Bool) (st : ReactionState) :
    Int × ReactionState :=
  match mget photoId st.reactionCountCache with
  | some c => (c, st)
  | none =>
    if net then
      let count : Int := ((mget photoId st.remote).getD []).length
      (count, { st with reactionCountCache := mset photoId count st.reactionCountCache })
    else (0, st)

/-- `hasUserLiked`: the user's cached reaction set if present, otherwise a
remote snapshot scan; a transport error is caught as `false`. -/
def hasUserLiked (photoId userId : String) (net : Bool) (st : ReactionState) :
    Bool :=
  match mget userId st.userReactionsCache with
  | some userReactions => userReactions.contains photoId
  | none =>
    if net then ((mget photoId st.remote).getD []).contains userId
    else false

/-- `loadReactionsForPhotos`: per-photo independent fetches; each success
caches the snapshot size and, if liked, extends the user's reaction set;
each failure yields the `{count: 0, isLiked: false}` default for that photo
only.  `netFor` gives each photo's transport outcome. -/
def loadReactionsForPhotos (photoIds : List String) (userId : String)
    (netFor : String → Bool) (st : ReactionState) :
    List (String × Int × Bool) × ReactionState :=
  match photoIds with
  | [] => ([], st)
  | photoId :: rest =>
    let (entry, st1) :=
      if netFor photoId then
        let docs := (mget photoId st.remote).getD []
        let count : Int := docs.length
        let isLiked := docs.contains userId
        ((photoId, count, isLiked),
         { st with
           reactionCountCache := mset photoId count st.reactionCountCache,
           userReactionsCache :=
             if isLiked then
               mset userId
                 (arrayUnion photoId ((mget userId st.userReactionsCache).getD []))
                 st.userReactionsCache
             else st.userReactionsCache })
      else ((photoId, 0, false), st)
    let (restResults, st2) := loadReactionsForPhotos rest userId netFor st1
    (entry :: restResults, st2)

/-! ## Request deduplication (C1) -/

/-- C1: `deduplicateRequest` returns the future already registered under the
key without invoking the producer; otherwise it invokes the producer once and
registers its future under the key; the settle cleanup removes the
registration whether the fetch succeeded or failed; consequently two
concurrent `getUserByUsername "x"` calls starting before either settles (and
finding nothing cached) receive the same future — hence equal results when it
settles — and cause exactly one remote fetch between them. -/
theorem deduplicateRequest_spec :
    (∀ (key : String) (pending : List (String × Nat)) (nextId i : Nat),
       mget key pending = some i →
       deduplicateRequest key pending nextId = ⟨i, false, pending, nextId⟩) ∧
    (∀ (key : String) (pending : List (String × Nat)) (nextId : Nat),
       mget key pending = none →
       deduplicateRequest key pending nextId =
         ⟨nextId, true, mset key nextId pending, nextId + 1⟩ ∧
       mget key (mset key nextId pending) = some nextId) ∧
    (∀ (key : String) (pending : List (String × Nat)),
       mget key (settlePending key pending) = none) ∧
    (∀ (username : String) (net : Bool) (now : Int) (st : UserStoreState),
       mget ("user:" ++ username)
         (getUserByUsernameSettle username net now st).2.pending = none) ∧
    (∀ (x : String) (now1 now2 : Int) (st : UserStoreState),
       mget x st.userCache = none →
       mget ("user:" ++ x) st.pending = none →
       (getUserByUsernameStart x now1 st).1 = .started st.nextId ∧
       (getUserByUsernameStart x now2
         (getUserByUsernameStart x now1 st).2).1 = .joined st.nextId ∧
       (getUserByUsernameStart x now2
         (getUserByUsernameStart x now1 st).2).2.remoteFetches =
         st.remoteFetches + 1) := by
  refine ⟨?_, ?_, ?_, ?_, ?_⟩
  · intro key pending nextId i h
    simp [deduplicateRequest, h]
  · intro key pending nextId h
    exact ⟨by simp [deduplicateRequest, h], mget_mset_self _ _ _⟩
  · intro key pending
    exact mget_mdel_self _ _
  · intro username net now st
    rw [getUserByUsernameSettle]
    cases net with
    | false => exact mget_mdel_self _ _
    | true =>
      cases mget username st.remote with
      | none => exact mget_mdel_self _ _
      | some u => exact mget_mdel_self _ _
  · intro x now1 now2 st hcache hpending
    have hstep1 : getUserByUsernameStart x now1 st =
        (.started st.nextId,
         { st with pending := mset ("user:" ++ x) st.nextId st.pending,
                   nextId := st.nextId + 1,
                   remoteFetches := st.remoteFetches + 1 }) := by
      rw [getUserByUsernameStart, hcache, getUserDedup, deduplicateRequest,
        hpending]
      rfl
    have hstep2 : getUserByUsernameStart x now2
        (getUserByUsernameStart x now1 st).2 =
        (.joined st.nextId, (getUserByUsernameStart x now1 st).2) := by
      rw [hstep1]
      rw [getUserByUsernameStart]
      simp only
      rw [hcache, getUserDedup, deduplicateRequest, mget_mset_self]
      rfl
    refine ⟨by rw [hstep1], by rw [hstep2], by rw [hstep2, hstep1]⟩

/-- C1 witness: the two-call scenario on a concrete one-user store. -/
theorem deduplicateRequest_spec_witness :
    (getUserByUsernameStart "x" 0
      ⟨[("x", ⟨"x", none, [], none⟩)], [], [], 0, 0⟩).1 = .started 0 ∧
    (getUserByUsernameStart "x" 0
      (getUserByUsernameStart "x" 0
        ⟨[("x", ⟨"x", none, [], none⟩)], [], [], 0, 0⟩).2).1 = .joined 0 ∧
    (getUserByUsernameStart "x" 0
      (getUserByUsernameStart "x" 0
        ⟨[("x", ⟨"x", none, [], none⟩)], [], [], 0, 0⟩).2).2.remoteFetches = 1 :=
  deduplicateRequest_spec.2.2.2.2 "x" 0 0
    ⟨[("x", ⟨"x", none, [], none⟩)], [], [], 0, 0⟩ rfl rfl

/-! ## Cache TTLs (C3) -/

/-- C3: a cache entry is valid exactly when `now - timestamp < TTL` (and a
missing entry never is); the TTLs are 5 minutes for users, 2 for photos, 1
for comments; a read that finds the entry a settled read cached within its
TTL is served from cache with zero additional fetches and unchanged state,
and a read that finds the entry expired (with no request in flight) starts
exactly one more fetch. -/
theorem cacheTTL_spec :
    (∀ (T : Type) (e : CacheEntry T) (now ttl : Int),
       (isCacheValid (some e) now ttl = true ↔ now - e.timestamp < ttl) ∧
       isCacheValid (none : Option (CacheEntry T)) now ttl = false) ∧
    (USER_CACHE_TTL = 300000 ∧ PHOTO_CACHE_TTL = 120000 ∧
     COMMENT_CACHE_TTL = 60000) ∧
    (∀ (x : String) (u : User) (t now : Int) (st : UserStoreState),
       mget x st.remote = some u → now - t < USER_CACHE_TTL →
       getUserByUsernameStart x now (getUserByUsernameSettle x true t st).2 =
         (.hit (some u), (getUserByUsernameSettle x true t st).2)) ∧
    (∀ (x : String) (now : Int) (st : UserStoreState) (e : CacheEntry User),
       mget x st.userCache = some e → USER_CACHE_TTL ≤ now - e.timestamp →
       mget ("user:" ++ x) st.pending = none →
       (getUserByUsernameStart x now st).1 = .started st.nextId ∧
       (getUserByUsernameStart x now st).2.remoteFetches =
         st.remoteFetches + 1) ∧
    (∀ (t now : Int) (st : PhotoStoreState),
       now - t < PHOTO_CACHE_TTL →
       getAllPhotosStart now (getAllPhotosSettle true t st).2 =
         (.hit (sortByTimestampDesc st.remote),
          (getAllPhotosSettle true t st).2)) ∧
    (∀ (now : Int) (st : PhotoStoreState) (e : CacheEntry (List Photo)),
       st.photosCache = some e → PHOTO_CACHE_TTL ≤ now - e.timestamp →
       mget "allPhotos" st.pending = none →
       (getAllPhotosStart now st).1 = .started st.nextId ∧
       (getAllPhotosStart now st).2.remoteFetches = st.remoteFetches + 1) := by
  refine ⟨?_, ⟨by decide, by decide, by decide⟩, ?_, ?_, ?_, ?_⟩
  · intro T e now ttl
    constructor
    · simp [isCacheValid]
    · rfl
  · intro x u t now st hremote hfresh
    have hcache :
        mget x (getUserByUsernameSettle x true t st).2.userCache =
          some ⟨u, t⟩ := by
      simp only [getUserByUsernameSettle, hremote]
      exact mget_mset_self _ _ _
    simp only [getUserByUsernameStart, hcache, isCacheValid]
    simp [hfresh]
  · intro x now st e hcache hexpired hpending
    simp only [getUserByUsernameStart, hcache, isCacheValid]
    rw [if_neg (by simp only [decide_eq_true_eq, not_lt]; omega)]
    simp only [getUserDedup, deduplicateRequest, hpending]
    exact ⟨rfl, rfl⟩
  · intro t now st hfresh
    have hcache : (getAllPhotosSettle true t st).2.photosCache =
        some ⟨sortByTimestampDesc st.remote, t⟩ := by
      simp [getAllPhotosSettle]
    simp only [getAllPhotosStart, hcache, isCacheValid]
    simp [hfresh]
  · intro now st e hcache hexpired hpending
    simp only [getAllPhotosStart, hcache, isCacheValid]
    rw [if_neg (by simp only [decide_eq_true_eq, not_lt]; omega)]
    simp only [getAllPhotosDedup, deduplicateRequest, hpending]
    exact ⟨rfl, rfl⟩

/-- C3 witness: concrete fresh and expired reads in both stores. -/
theorem cacheTTL_spec_witness :
    getUserByUsernameStart "x" 100
      (getUserByUsernameSettle "x" true 50
        ⟨[("x", ⟨"x", none, [], none⟩)], [], [], 0, 0⟩).2 =
      (.hit (some ⟨"x", none, [], none⟩),
       (getUserByUsernameSettle "x" true 50
         ⟨[("x", ⟨"x", none, [], none⟩)], [], [], 0, 0⟩).2) ∧
    (getUserByUsernameStart "x" 300001
      ⟨[], [("x", ⟨⟨"x", none, [], none⟩, 0⟩)], [], 4, 7⟩).1 = .started 4 ∧
    (getAllPhotosStart 120000 ⟨[], some ⟨[], 0⟩, [], 2, 3⟩).1 = .started 2 :=
  ⟨cacheTTL_spec.2.2.1 "x" ⟨"x", none, [], none⟩ 50 100
     ⟨[("x", ⟨"x", none, [], none⟩)], [], [], 0, 0⟩ rfl (by decide),
   (cacheTTL_spec.2.2.2.1 "x" 300001
     ⟨[], [("x", ⟨⟨"x", none, [], none⟩, 0⟩)], [], 4, 7⟩
     ⟨⟨"x", none, [], none⟩, 0⟩ rfl (by decide) rfl).1,
   (cacheTTL_spec.2.2.2.2.2 120000 ⟨[], some ⟨[], 0⟩, [], 2, 3⟩
     ⟨[], 0⟩ rfl (by decide) rfl).1⟩

/-! ## Visibility filtering (C7) -/

/-- C7: `getVisiblePhotos username` keeps exactly the photos of the resolved
`getAllPhotos()` sequence whose uploader is `username` or whose tags contain
`username`, and in particular it keeps soft-deleted photos meeting that
condition — it never filters on `deleted`. -/
theorem getVisiblePhotos_spec :
    (∀ (username : String) (allPhotos : List Photo) (p : Photo),
       p ∈ getVisiblePhotos username allPhotos ↔
         p ∈ allPhotos ∧ (p.uploader = username ∨ username ∈ p.tags)) ∧
    (∀ (username : String) (allPhotos : List Photo) (p : Photo),
       p ∈ allPhotos → p.deleted = some true →
       (p.uploader = username ∨ username ∈ p.tags) →
       p ∈ getVisiblePhotos username allPhotos) := by
  have h1 : ∀ (username : String) (allPhotos : List Photo) (p : Photo),
      p ∈ getVisiblePhotos username allPhotos ↔
        p ∈ allPhotos ∧ (p.uploader = username ∨ username ∈ p.tags) := by
    intro username allPhotos p
    simp [getVisiblePhotos, List.mem_filter, List.elem_iff]
  exact ⟨h1, fun username allPhotos p hmem _ hcond =>
    (h1 username allPhotos p).mpr ⟨hmem, hcond⟩⟩

/-- C7 witness: a concrete soft-deleted tagged photo stays visible. -/
theorem getVisiblePhotos_spec_witness :
    (⟨"p1", "u", "alice", ["bob"], 5, none, some true⟩ : Photo) ∈
      getVisiblePhotos "bob"
        [⟨"p1", "u", "alice", ["bob"], 5, none, some true⟩] :=
  getVisiblePhotos_spec.2 "bob" _ _ (by simp) rfl (by simp)

/-! ## Friend graph (C2) -/

theorem mem_arrayUnion_self (x : String) (l : List String) :
    x ∈ arrayUnion x l := by
  by_cases h : x ∈ l
  · simp [arrayUnion, h]
  · simp [arrayUnion, h]

theorem count_arrayUnion_self (x : String) (l : List String) :
    List.count x (arrayUnion x l) = max (List.count x l) 1 := by
  by_cases h : x ∈ l
  · rw [arrayUnion, if_pos h]
    have h1 : 0 < List.count x l := List.count_pos_iff.mpr h
    omega
  · rw [arrayUnion, if_neg h, List.count_append]
    have h0 : List.count x l = 0 := List.count_eq_zero.mpr h
    simp [h0]

theorem not_mem_arrayRemove_self (x : String) (l : List String) :
    x ∉ arrayRemove x l := by
  simp [arrayRemove, List.mem_filter]

theorem getUserByUsernameStart_remote (u : String) (now : Int)
    (st : UserStoreState) :
    (getUserByUsernameStart u now st).2.remote = st.remote := by
  rw [getUserByUsernameStart]
  cases h : mget u st.userCache with
  | none => rfl
  | some c =>
    dsimp only
    by_cases hv : isCacheValid (some c) now USER_CACHE_TTL = true
    · rw [if_pos hv]
    · rw [if_neg hv]; rfl

theorem getUserByUsernameSettle_remote (u : String) (net : Bool) (now : Int)
    (st : UserStoreState) :
    (getUserByUsernameSettle u net now st).2.remote = st.remote := by
  rw [getUserByUsernameSettle]
  cases net with
  | false => rfl
  | true => cases mget u st.remote <;> rfl

theorem getUserByUsernameSettle_result (u : String) (now : Int)
    (st : UserStoreState) :
    (getUserByUsernameSettle u true now st).1 = mget u st.remote := by
  rw [getUserByUsernameSettle]
  cases mget u st.remote <;> rfl

theorem getUserQuiescent_remote (u : String) (now : Int) (net : Bool)
    (st : UserStoreState) :
    (getUserQuiescent u now net st).2.remote = st.remote := by
  have h1 := getUserByUsernameStart_remote u now st
  rw [getUserQuiescent.eq_def]
  rcases hs : getUserByUsernameStart u now st with ⟨r, st1⟩
  rw [hs] at h1
  cases r with
  | hit v => exact h1
  | joined id => rw [getUserByUsernameSettle_remote]; exact h1
  | started id => rw [getUserByUsernameSettle_remote]; exact h1

theorem getUserQuiescent_cache_miss (u : String) (now : Int)
    (st : UserStoreState) (h : mget u st.userCache = none) :
    (getUserQuiescent u now true st).1 = mget u st.remote := by
  rw [getUserQuiescent.eq_def]
  rcases hs : getUserByUsernameStart u now st with ⟨r, st1⟩
  have hrem : st1.remote = st.remote := by
    have := getUserByUsernameStart_remote u now st; rw [hs] at this; exact this
  have hnothit : ∀ v, r ≠ .hit v := by
    intro v hv
    rw [getUserByUsernameStart, h, getUserDedup] at hs
    rcases hif : (deduplicateRequest ("user:" ++ u) st.pending
        st.nextId).producerInvoked with _ | _ <;>
      simp [hif, hv] at hs
  cases r with
  | hit v => exact absurd rfl (hnothit v)
  | joined id => rw [getUserByUsernameSettle_result, hrem]
  | started id => rw [getUserByUsernameSettle_result, hrem]

theorem getFriends_fresh (u : String) (now : Int) (st : UserStoreState)
    (fr : User) (hc : mget u st.userCache = none)
    (hr : mget u st.remote = some fr) :
    (getFriends u now true st).1 = fr.friends := by
  simp only [getFriends]
  rw [getUserQuiescent_cache_miss u now st hc, hr]
  rfl

/-- C2: `addFriend` rejects self-friending and a target missing from the
remote collection; it returns false on transport failure and, whenever it
returns false, the remote collection is untouched (the batched write is
all-or-none); a successful `addFriend a b` applies `arrayUnion` to both
sides in one batch — so repeated calls leave at most one entry — and
afterwards `getFriends` sees `b` among `a`'s friends and `a` among `b`'s;
a failed `removeFriend` changes nothing, and after a successful
`removeFriend a b` neither membership holds. -/
theorem addFriend_removeFriend_spec :
    (∀ (a : String) (now : Int) (net : Bool) (st : UserStoreState),
       (addFriend a a now net st).1 = false) ∧
    (∀ (a b : String) (now : Int) (net : Bool) (st : UserStoreState),
       mget b st.remote = none → (addFriend a b now net st).1 = false) ∧
    (∀ (a b : String) (now : Int) (st : UserStoreState),
       (addFriend a b now false st).1 = false) ∧
    (∀ (a b : String) (now : Int) (net : Bool) (st : UserStoreState),
       (addFriend a b now net st).1 = false →
       (addFriend a b now net st).2.remote = st.remote) ∧
    (∀ (a b : String) (now now2 : Int) (net : Bool) (st : UserStoreState),
       (addFriend a b now net st).1 = true →
       b ∈ (getFriends a now2 true (addFriend a b now net st).2).1 ∧
       a ∈ (getFriends b now2 true (addFriend a b now net st).2).1) ∧
    (∀ (a b : String) (now : Int) (net : Bool) (st : UserStoreState)
       (cu0 : User),
       (addFriend a b now net st).1 = true → mget a st.remote = some cu0 →
       mget a (addFriend a b now net st).2.remote =
         some { cu0 with friends := arrayUnion b cu0.friends } ∧
       List.count b (arrayUnion b cu0.friends) =
         max (List.count b cu0.friends) 1) ∧
    (∀ (a b : String) (net : Bool) (st : UserStoreState),
       (removeFriend a b net st).1 = false →
       (removeFriend a b net st).2 = st) ∧
    (∀ (a b : String) (net : Bool) (st : UserStoreState) (now2 : Int),
       (removeFriend a b net st).1 = true →
       b ∉ (getFriends a now2 true (removeFriend a b net st).2).1 ∧
       a ∉ (getFriends b now2 true (removeFriend a b net st).2).1) := by
  refine ⟨?_, ?_, ?_, ?_, ?_, ?_, ?_, ?_⟩
  · -- self-friending
    intro a now net st
    rcases hq : getUserQuiescent a now net st with ⟨tuo, st1⟩
    rw [addFriend.eq_def, hq]
    cases tuo with
    | none => rfl
    | some tuser => simp
  · -- nonexistent target
    intro a b now net st hb
    rcases hq : getUserQuiescent b now net st with ⟨tuo, st1⟩
    have hrem : st1.remote = st.remote := by
      have := getUserQuiescent_remote b now net st; rw [hq] at this; exact this
    rw [addFriend.eq_def, hq]
    cases tuo with
    | none => rfl
    | some tuser =>
      try dsimp only
      by_cases hab : a = b
      · rw [if_pos hab]
      · rw [if_neg hab]
        cases net with
        | false => rfl
        | true =>
          try dsimp only
          cases hcu : mget a st1.remote with
          | none => rfl
          | some cu =>
            try dsimp only
            have htu : mget b (mset a
                { cu with friends := arrayUnion b cu.friends } st1.remote) =
                none := by
              rw [mget_mset, if_neg (fun h => hab h.symm), hrem, hb]
            rw [htu]
            rfl
  · -- transport failure
    intro a b now st
    rcases hq : getUserQuiescent b now false st with ⟨tuo, st1⟩
    rw [addFriend.eq_def, hq]
    cases tuo with
    | none => rfl
    | some tuser =>
      try dsimp only
      by_cases hab : a = b
      · rw [if_pos hab]
      · rw [if_neg hab]
        rfl
  · -- failure leaves the remote untouched
    intro a b now net st h
    rcases hq : getUserQuiescent b now net st with ⟨tuo, st1⟩
    have hrem : st1.remote = st.remote := by
      have := getUserQuiescent_remote b now net st; rw [hq] at this; exact this
    rw [addFriend.eq_def, hq] at h ⊢
    cases tuo with
    | none => exact hrem
    | some tuser =>
      try dsimp only at h ⊢
      by_cases hab : a = b
      · rw [if_pos hab]; exact hrem
      · rw [if_neg hab] at h ⊢
        cases net with
        | false => exact hrem
        | true =>
          try dsimp only at h ⊢
          cases hcu : mget a st1.remote with
          | none => exact hrem
          | some cu =>
            try dsimp only at h ⊢
            cases htu : mget b (mset a
                { cu with friends := arrayUnion b cu.friends } st1.remote) with
            | none => exact hrem
            | some tu => simp [hcu, htu] at h
  · -- symmetry after success
    intro a b now now2 net st h
    rcases hq : getUserQuiescent b now net st with ⟨tuo, st1⟩
    rw [addFriend.eq_def, hq] at h ⊢
    cases tuo with
    | none => simp at h
    | some tuser =>
      try dsimp only at h ⊢
      by_cases hab : a = b
      · rw [if_pos hab] at h; simp at h
      · rw [if_neg hab] at h ⊢
        cases net with
        | false => simp at h
        | true =>
          try dsimp only at h ⊢
          cases hcu : mget a st1.remote with
          | none => simp [hcu] at h
          | some cu =>
            try dsimp only at h ⊢
            cases htu : mget b (mset a
                { cu with friends := arrayUnion b cu.friends } st1.remote) with
            | none => simp [hcu, htu] at h
            | some tu =>
              try dsimp only at h ⊢
              constructor
              · have hc : mget a (mdel b (mdel a st1.userCache)) = none := by
                  rw [mget_mdel]
                  by_cases h2 : a = b
                  · simp [h2]
                  · simp [h2, mget_mdel_self]
                have hr : mget a (mset b
                    { tu with friends := arrayUnion a tu.friends }
                    (mset a { cu with friends := arrayUnion b cu.friends }
                      st1.remote)) =
                    some { cu with friends := arrayUnion b cu.friends } := by
                  rw [mget_mset, if_neg hab, mget_mset_self]
                rw [getFriends_fresh a now2 _ _ hc hr]
                exact mem_arrayUnion_self b cu.friends
              · have hc : mget b (mdel b (mdel a st1.userCache)) = none :=
                  mget_mdel_self _ _
                have hr : mget b (mset b
                    { tu with friends := arrayUnion a tu.friends }
                    (mset a { cu with friends := arrayUnion b cu.friends }
                      st1.remote)) =
                    some { tu with friends := arrayUnion a tu.friends } :=
                  mget_mset_self _ _ _
                rw [getFriends_fresh b now2 _ _ hc hr]
                exact mem_arrayUnion_self a tu.friends
  · -- add-to-set semantics on the initiator's side
    intro a b now net st cu0 h hcu0
    rcases hq : getUserQuiescent b now net st with ⟨tuo, st1⟩
    have hrem : st1.remote = st.remote := by
      have := getUserQuiescent_remote b now net st; rw [hq] at this; exact this
    rw [addFriend.eq_def, hq] at h ⊢
    cases tuo with
    | none => simp at h
    | some tuser =>
      try dsimp only at h ⊢
      by_cases hab : a = b
      · rw [if_pos hab] at h; simp at h
      · rw [if_neg hab] at h ⊢
        cases net with
        | false => simp at h
        | true =>
          try dsimp only at h ⊢
          cases hcu : mget a st1.remote with
          | none => simp [hcu] at h
          | some cu =>
            try dsimp only at h ⊢
            have hcueq : cu0 = cu := by
              rw [hrem, hcu0] at hcu
              exact Option.some.inj hcu
            subst hcueq
            cases htu : mget b (mset a
                { cu0 with friends := arrayUnion b cu0.friends } st1.remote) with
            | none => simp [hcu, htu] at h
            | some tu =>
              rw [if_pos (rfl : (true : Bool) = true)]
              try dsimp only
              refine ⟨?_, count_arrayUnion_self b cu0.friends⟩
              rw [mget_mset, if_neg hab, mget_mset_self]
  · -- removeFriend failure changes nothing
    intro a b net st h
    rw [removeFriend.eq_def] at h ⊢
    cases net with
    | false => rfl
    | true =>
      try dsimp only at h ⊢
      cases hcu : mget a st.remote with
      | none => rfl
      | some cu =>
        try dsimp only at h ⊢
        cases htu : mget b (mset a
            { cu with friends := arrayRemove b cu.friends } st.remote) with
        | none => rfl
        | some tu => simp [hcu, htu] at h
  · -- after a successful removeFriend neither membership holds
    intro a b net st now2 h
    rw [removeFriend.eq_def] at h ⊢
    cases net with
    | false => simp at h
    | true =>
      try dsimp only at h ⊢
      cases hcu : mget a st.remote with
      | none => simp [hcu] at h
      | some cu =>
        try dsimp only at h ⊢
        cases htu : mget b (mset a
            { cu with friends := arrayRemove b cu.friends } st.remote) with
        | none => simp [hcu, htu] at h
        | some tu =>
          try dsimp only at h ⊢
          constructor
          · have hc : mget a (mdel b (mdel a st.userCache)) = none := by
              rw [mget_mdel]
              by_cases h2 : a = b
              · simp [h2]
              · simp [h2, mget_mdel_self]
            by_cases hab : a = b
            · have hr : mget a (mset b
                  { tu with friends := arrayRemove a tu.friends }
                  (mset a { cu with friends := arrayRemove b cu.friends }
                    st.remote)) =
                  some { tu with friends := arrayRemove a tu.friends } := by
                rw [hab]; exact mget_mset_self _ _ _
              rw [getFriends_fresh a now2 _ _ hc hr]
              intro hmem
              rw [hab] at hmem
              exact not_mem_arrayRemove_self b tu.friends hmem
            · have hr : mget a (mset b
                  { tu with friends := arrayRemove a tu.friends }
                  (mset a { cu with friends := arrayRemove b cu.friends }
                    st.remote)) =
                  some { cu with friends := arrayRemove b cu.friends } := by
                rw [mget_mset, if_neg hab, mget_mset_self]
              rw [getFriends_fresh a now2 _ _ hc hr]
              exact not_mem_arrayRemove_self b cu.friends
          · have hc : mget b (mdel b (mdel a st.userCache)) = none :=
              mget_mdel_self _ _
            have hr : mget b (mset b
                { tu with friends := arrayRemove a tu.friends }
                (mset a { cu with friends := arrayRemove b cu.friends }
                  st.remote)) =
                some { tu with friends := arrayRemove a tu.friends } :=
              mget_mset_self _ _ _
            rw [getFriends_fresh b now2 _ _ hc hr]
            exact not_mem_arrayRemove_self a tu.friends

/-- C2 witness: a concrete self-rejection, a successful `addFriend` showing
both memberships, and a successful `removeFriend` erasing one. -/
theorem addFriend_removeFriend_spec_witness :
    (addFriend "alice" "alice" 0 true
      ⟨[("alice", ⟨"alice", none, [], none⟩)], [], [], 0, 0⟩).1 = false ∧
    "bob" ∈ (getFriends "alice" 1 true
      (addFriend "alice" "bob" 0 true
        ⟨[("alice", ⟨"alice", none, [], none⟩),
          ("bob", ⟨"bob", none, [], none⟩)], [], [], 0, 0⟩).2).1 ∧
    "alice" ∉ (getFriends "bob" 1 true
      (removeFriend "alice" "bob" true
        ⟨[("alice", ⟨"alice", none, ["bob"], none⟩),
          ("bob", ⟨"bob", none, ["alice"], none⟩)], [], [], 0, 0⟩).2).1 :=
  ⟨addFriend_removeFriend_spec.1 "alice" 0 true _,
   (addFriend_removeFriend_spec.2.2.2.2.1 "alice" "bob" 0 1 true _
     (by decide)).1,
   (addFriend_removeFriend_spec.2.2.2.2.2.2.2 "alice" "bob" true _ 1
     (by decide)).2⟩

/-! ## Reactions: toggle, transport errors, count invariant (C4, C9, C10) -/

theorem jsOrElse_some_zero (c : Int) : jsOrElse (some c) 0 = c := by
  simp only [jsOrElse]
  split <;> omega

theorem jsOrElse_some_ne_zero (c : Int) (h : c ≠ 0) :
    jsOrElse (some c) 1 = c := by
  simp only [jsOrElse]
  split <;> omega

/-- C4: with a healthy transport, `toggleLike` returns the negation of the
photo's current remote like membership — caches play no part in the decision
— and it is a true toggle: from the not-liked state with a cached count
`c ≥ 0`, one call returns true and caches `c + 1`, and a second call on the
same pair returns false and caches `c` again. -/
theorem toggleLike_spec :
    (∀ (pid uid : String) (t : Int) (st : ReactionState),
       (toggleLike pid uid t true st).1 =
         .ok (!((mget pid st.remote).getD []).contains uid)) ∧
    (∀ (pid uid : String) (t1 t2 : Int) (st : ReactionState) (c : Int),
       uid ∉ (mget pid st.remote).getD [] →
       mget pid st.reactionCountCache = some c → 0 ≤ c →
       (toggleLike pid uid t1 true st).1 = .ok true ∧
       mget pid (toggleLike pid uid t1 true st).2.reactionCountCache =
         some (c + 1) ∧
       (toggleLike pid uid t2 true (toggleLike pid uid t1 true st).2).1 =
         .ok false ∧
       mget pid (toggleLike pid uid t2 true
         (toggleLike pid uid t1 true st).2).2.reactionCountCache = some c) := by
  have hfst : ∀ (pid uid : String) (t : Int) (st : ReactionState),
      (toggleLike pid uid t true st).1 =
        .ok (!((mget pid st.remote).getD []).contains uid) := by
    intro pid uid t st
    by_cases hl : uid ∈ (mget pid st.remote).getD []
    · simp [toggleLike, hl]
    · simp [toggleLike, hl]
  refine ⟨hfst, ?_⟩
  intro pid uid t1 t2 st c hnot hcache hpos
  have h2 : (toggleLike pid uid t1 true st).2 =
      { remote := mset pid (((mget pid st.remote).getD []) ++ [uid]) st.remote,
        userReactionsCache := mset uid
          (arrayUnion pid ((mget uid st.userReactionsCache).getD []))
          st.userReactionsCache,
        reactionCountCache := mset pid (c + 1) st.reactionCountCache } := by
    simp [toggleLike, hnot, hcache, jsOrElse_some_zero]
  refine ⟨?_, ?_, ?_, ?_⟩
  · rw [hfst]; simp [hnot]
  · rw [h2]; exact mget_mset_self _ _ _
  · have hmem : uid ∈
        (mget pid (toggleLike pid uid t1 true st).2.remote).getD [] := by
      rw [h2]
      dsimp only
      rw [mget_mset_self]
      simp
    rw [hfst]; simp [hmem]
  · have hjs : jsOrElse (some (c + 1)) 1 = c + 1 :=
      jsOrElse_some_ne_zero _ (by omega)
    rw [h2]
    simp [toggleLike, mget_mset_self, hjs, max_eq_right hpos]

/-- C4 witness: the concrete double toggle from a remote with no reaction
documents and a cached count of 5. -/
theorem toggleLike_spec_witness :
    (toggleLike "p" "u" 0 true ⟨[], [("p", 5)], []⟩).1 = .ok true ∧
    mget "p" (toggleLike "p" "u" 0 true
      ⟨[], [("p", 5)], []⟩).2.reactionCountCache = some 6 ∧
    (toggleLike "p" "u" 1 true
      (toggleLike "p" "u" 0 true ⟨[], [("p", 5)], []⟩).2).1 = .ok false ∧
    mget "p" (toggleLike "p" "u" 1 true
      (toggleLike "p" "u" 0 true
        ⟨[], [("p", 5)], []⟩).2).2.reactionCountCache = some 5 :=
  toggleLike_spec.2 "p" "u" 0 1 ⟨[], [("p", 5)], []⟩ 5 (by decide) rfl
    (by decide)

/-- C9: the read paths catch transport errors at the store boundary and
return safe defaults — `getAllPhotos` resolves to `[]` and writes no cache
entry, `getUserByUsername` resolves to `null` and caches nothing,
`hasUserLiked` (with nothing cached for the user) returns `false`,
`getReactionCount` (with nothing cached for the photo) returns `0` — while
`toggleLike` re-raises the transport error to its caller with the store
state untouched. -/
theorem transportErrors_spec :
    (∀ (now : Int) (st : PhotoStoreState),
       (getAllPhotosSettle false now st).1 = [] ∧
       (getAllPhotosSettle false now st).2.photosCache = st.photosCache) ∧
    (∀ (u : String) (now : Int) (st : UserStoreState),
       (getUserByUsernameSettle u false now st).1 = none ∧
       (getUserByUsernameSettle u false now st).2.userCache = st.userCache) ∧
    (∀ (pid uid : String) (st : ReactionState),
       mget uid st.userReactionsCache = none →
       hasUserLiked pid uid false st = false) ∧
    (∀ (pid : String) (st : ReactionState),
       mget pid st.reactionCountCache = none →
       getReactionCount pid false st = (0, st)) ∧
    (∀ (pid uid : String) (t : Int) (st : ReactionState),
       toggleLike pid uid t false st = (.error (), st)) := by
  refine ⟨?_, ?_, ?_, ?_, ?_⟩
  · intro now st
    exact ⟨rfl, rfl⟩
  · intro u now st
    exact ⟨rfl, rfl⟩
  · intro pid uid st h
    rw [hasUserLiked.eq_def, h]
    rfl
  · intro pid st h
    rw [getReactionCount.eq_def, h]
    rfl
  · intro pid uid t st
    rfl

/-- C9 witness: the reaction-store defaults on a concrete state with a
remote like present but cold caches. -/
theorem transportErrors_spec_witness :
    hasUserLiked "p" "u" false ⟨[("p", ["u"])], [], []⟩ = false ∧
    getReactionCount "p" false ⟨[("p", ["u"])], [], []⟩ =
      (0, ⟨[("p", ["u"])], [], []⟩) :=
  ⟨transportErrors_spec.2.2.1 "p" "u" _ rfl,
   transportErrors_spec.2.2.2.1 "p" _ rfl⟩

/-- Every cached reaction count is non-negative. -/
def countsNonneg (st : ReactionState) : Prop :=
  ∀ (p : String) (c : Int), mget p st.reactionCountCache = some c → 0 ≤ c

theorem countsNonneg_insert {m : List (String × Int)} (p : String) (v : Int)
    (hm : ∀ q c, mget q m = some c → 0 ≤ c) (hv : 0 ≤ v) :
    ∀ q c, mget q (mset p v m) = some c → 0 ≤ c := by
  intro q c h
  rw [mget_mset] at h
  by_cases hq : q = p
  · rw [if_pos hq] at h
    exact Option.some.inj h ▸ hv
  · rw [if_neg hq] at h
    exact hm q c h

/-- C10: every write into the reaction-count cache stores a value `≥ 0` —
the unlike path clamps with `max 0 (count - 1)`, a missing count is treated
as 1 and becomes 0, and snapshot sizes are naturals — so all three cache
writers preserve non-negativity of every cached count. -/
theorem reactionCountCache_nonneg_spec :
    (∀ (pid uid : String) (t : Int) (net : Bool) (st : ReactionState),
       countsNonneg st → countsNonneg (toggleLike pid uid t net st).2) ∧
    (∀ (pid : String) (net : Bool) (st : ReactionState),
       countsNonneg st → countsNonneg (getReactionCount pid net st).2) ∧
    (∀ (pids : List String) (uid : String) (netFor : String → Bool)
       (st : ReactionState),
       countsNonneg st →
       countsNonneg (loadReactionsForPhotos pids uid netFor st).2) := by
  have htoggle : ∀ (pid uid : String) (t : Int) (net : Bool)
      (st : ReactionState),
      countsNonneg st → countsNonneg (toggleLike pid uid t net st).2 := by
    intro pid uid t net st hst
    cases net with
    | false => exact hst
    | true =>
      rw [toggleLike, if_pos (rfl : (true : Bool) = true)]
      by_cases hl : ((mget pid st.remote).getD []).contains uid = true
      · rw [if_pos hl]
        intro q c h
        refine countsNonneg_insert pid _ hst ?_ q c h
        exact le_max_left _ _
      · rw [if_neg hl]
        intro q c h
        refine countsNonneg_insert pid _ hst ?_ q c h
        have : 0 ≤ jsOrElse (mget pid st.reactionCountCache) 0 := by
          cases hc : mget pid st.reactionCountCache with
          | none => simp [jsOrElse]
          | some c0 =>
            have := hst pid c0 hc
            simp only [jsOrElse]
            split <;> omega
        omega
  refine ⟨htoggle, ?_, ?_⟩
  · intro pid net st hst
    rw [getReactionCount.eq_def]
    cases hc : mget pid st.reactionCountCache with
    | some c => exact hst
    | none =>
      cases net with
      | false => exact hst
      | true =>
        intro q c h
        refine countsNonneg_insert pid _ hst ?_ q c h
        exact Int.natCast_nonneg _
  · intro pids
    induction pids with
    | nil => intro uid netFor st hst; exact hst
    | cons pid rest ih =>
      intro uid netFor st hst
      rw [loadReactionsForPhotos]
      by_cases hn : netFor pid = true
      · rw [if_pos hn]
        dsimp only
        apply ih
        intro q c h
        refine countsNonneg_insert pid _ hst ?_ q c h
        exact Int.natCast_nonneg _
      · rw [if_neg hn]
        dsimp only
        exact ih uid netFor st hst

/-- C10 witness: preservation applied to concrete cold and warm states. -/
theorem reactionCountCache_nonneg_spec_witness :
    countsNonneg (toggleLike "p" "u" 0 true ⟨[], [], []⟩).2 ∧
    countsNonneg (getReactionCount "p" true ⟨[("p", ["u"])], [], []⟩).2 :=
  ⟨reactionCountCache_nonneg_spec.1 "p" "u" 0 true ⟨[], [], []⟩
     (fun p c h => by simp [mget] at h),
   reactionCountCache_nonneg_spec.2.1 "p" true ⟨[("p", ["u"])], [], []⟩
     (fun p c h => by simp [mget] at h)⟩

/-- C6: an input is declared valid by `validateUsername` exactly when its
trimmed, lowercased form matches `[a-z0-9_]` with length 3–20 and is not a
reserved word; every rejected input carries a non-empty error message. -/
theorem validateUsername_spec (username : List Char) :
    ((validateUsername username).valid = true ↔
      (3 ≤ (jsToLower (jsTrim username)).length ∧
       (jsToLower (jsTrim username)).length ≤ 20 ∧
       (jsToLower (jsTrim username)).all isUsernameChar = true ∧
       jsToLower (jsTrim username) ∉ reservedUsernames)) ∧
    ((validateUsername username).valid = false →
      ∃ e, (validateUsername username).error = some e ∧ e ≠ "") := by
  simp only [validateUsername]
  split_ifs with h1 h2 h3 h4
  · refine ⟨?_, fun _ => ⟨_, rfl, by decide⟩⟩
    simp only [false_iff]
    intro ⟨hl, _⟩; omega
  · refine ⟨?_, fun _ => ⟨_, rfl, by decide⟩⟩
    simp only [false_iff]
    intro ⟨_, hl, _⟩; omega
  · replace h3 : matchesUsernameRegex (jsToLower (jsTrim username)) = false := by
      simpa using h3
    refine ⟨?_, fun _ => ⟨_, rfl, by decide⟩⟩
    simp only [false_iff]
    intro ⟨hlen, _, hall, _⟩
    have hne : (jsToLower (jsTrim username)).isEmpty = false := by
      cases h : jsToLower (jsTrim username) with
      | nil => rw [h] at hlen; simp at hlen
      | cons a l => rfl
    simp [matchesUsernameRegex, hne, hall] at h3
  · refine ⟨?_, fun _ => ⟨_, rfl, by decide⟩⟩
    simp only [false_iff]
    intro ⟨_, _, _, hres⟩; exact hres h4
  · replace h3 : matchesUsernameRegex (jsToLower (jsTrim username)) = true := by
      simpa using h3
    simp only [matchesUsernameRegex, Bool.and_eq_true] at h3
    refine ⟨?_, fun h => absurd h (by simp)⟩
    constructor
    · intro _; exact ⟨by omega, by omega, h3.2, h4⟩
    · intro _; rfl

/-- C6 witness: `validateUsername` accepts the concrete username `alice`. -/
theorem validateUsername_spec_witness :
    (validateUsername "alice".data).valid = true :=
  (validateUsername_spec "alice".data).1.mpr (by decide)

/-- C8: `validateImage` accepts exactly the four allow-listed MIME types with
size at most 10485760 bytes; a 10485760-byte JPEG passes, a 10485761-byte JPEG
fails with the too-large message, and an `application/pdf` file of any size
fails with the invalid-type message. -/
theorem validateImage_spec :
    (∀ f : FileInfo, (validateImage f).valid = true ↔
       (f.type ∈ ALLOWED_TYPES ∧ f.size ≤ 10485760)) ∧
    validateImage ⟨"image/jpeg", 10485760⟩ = ⟨true, none⟩ ∧
    validateImage ⟨"image/jpeg", 10485761⟩ =
      ⟨false, some "File too large. Maximum size is 10MB."⟩ ∧
    ∀ n : Nat, validateImage ⟨"application/pdf", n⟩ =
      ⟨false, some "Invalid file type. Use JPEG, PNG, GIF, or WebP."⟩ := by
  refine ⟨?_, by decide, by decide, ?_⟩
  · intro f
    by_cases h1 : f.type ∈ ALLOWED_TYPES
    · rw [validateImage, if_neg (fun hc => hc h1)]
      by_cases h2 : f.size > MAX_SIZE
      · rw [if_pos h2]
        simp only [MAX_SIZE] at h2
        constructor
        · intro h; simp at h
        · intro ⟨_, hs⟩; omega
      · rw [if_neg h2]
        simp only [MAX_SIZE, not_lt] at h2
        constructor
        · intro _; exact ⟨h1, by omega⟩
        · intro _; rfl
    · rw [validateImage, if_pos h1]
      constructor
      · intro h; simp at h
      · intro ⟨ht, _⟩; exact absurd ht h1
  · intro n
    simp [validateImage, show ("application/pdf" : String) ∉ ALLOWED_TYPES by decide]

end Neonshare
